import Mathlib

/-!
Verification of the canonical GraphQL AST printer (`graphql/language/printer.py`)
and its collaborators, as a shallow embedding in Lean 4.

The printer operates bottom-up: each `leave_<kind>` callback receives a node
whose children have already been replaced by their printed text.  We embed each
callback as a pure function whose parameters are the node's (already printed)
attributes, in the order the source reads them.
-/

namespace GraphQL

/-- Shared helper `join(strings, separator)`: join only the truthy (non-empty)
strings with the separator; empty result on an empty collection. -/
def join (strings : List String) (separator : String) : String :=
  String.intercalate separator (strings.filter fun s => decide (s ≠ ""))

/-- Replacement of every newline character by a newline and two spaces (the
Python `string.replace("\n", "\n  ")` in `indent`), done character by
character since the pattern is the single character `\n`. -/
def replaceNewlines (string : String) : String :=
  String.join (string.data.map fun c => if c = '\n' then "\n  " else String.singleton c)

/-- Shared helper `indent(string)`: prefix every line with two spaces; no-op on
the empty string. -/
def indent (string : String) : String :=
  if string ≠ "" then "  " ++ replaceNewlines string else string

/-- Shared helper `block(strings)`: each item on its own line, wrapped in an
indented brace block; empty string when the collection is empty. -/
def block (strings : List String) : String :=
  if strings ≠ [] then "\x7b\n" ++ indent (join strings "\n") ++ "\n\x7d" else ""

/-- Shared helper `wrap(start, string, end)`: `start + string + end` when
`string` is non-empty, otherwise the empty string. -/
def wrap (start string stop : String) : String :=
  if string ≠ "" then start ++ string ++ stop else ""

/-- Shared helper `is_multiline(string)`: whether the string spans several
lines, i.e. contains a newline character. -/
def is_multiline (string : String) : Bool :=
  string.data.contains '\n'

/-- Shared helper `has_multiline_items(strings)`: whether some item of the
collection spans several lines. -/
def has_multiline_items (strings : List String) : Bool :=
  strings.any is_multiline

/-- Modelled from the spec: the operation-type enumeration of the AST module
(not under src/); the member values are the keywords `query`, `mutation` and
`subscription`, with `query` the default operation type. -/
inductive OperationType where
  | query
  | mutation
  | subscription
deriving DecidableEq

/-- The keyword spelled by an operation type (`op.value` in the source). -/
def OperationType.value : OperationType → String
  | .query => "query"
  | .mutation => "mutation"
  | .subscription => "subscription"

/-- Decorator `add_description`: prepend the (already printed) description to a
visitor method's output, joined by a newline and dropped when empty. -/
def add_description (description body : String) : String :=
  join [description, body] "\n"

/-- Printer callback `leave_name`. -/
def leave_name (value : String) : String := value

/-- Printer callback `leave_variable`. -/
def leave_variable (name : String) : String := "$" ++ name

/-- Printer callback `leave_document`: definitions joined by a blank line, with
a trailing newline appended. -/
def leave_document (definitions : List String) : String :=
  join definitions "\n\n" ++ "\n"

/-- Printer callback `leave_operation_definition`: anonymous queries with no
directives or variable definitions use the query short form. -/
def leave_operation_definition (name : String) (operation : OperationType)
    (selection_set : String) (variable_definitions directives : List String) :
    String :=
  let var_defs := wrap "(" (join variable_definitions ", ") ")"
  let dirs := join directives " "
  if name ≠ "" ∨ dirs ≠ "" ∨ var_defs ≠ "" ∨ operation ≠ OperationType.query then
    join [operation.value, join [name, var_defs] "", dirs, selection_set] " "
  else selection_set

/-- Printer callback `leave_selection_set`. -/
def leave_selection_set (selections : List String) : String :=
  block selections

/-- Printer callback `leave_field`; `field_alias` embeds the node's `alias`
attribute (the Python name is a Lean keyword). -/
def leave_field (field_alias name : String) (arguments : List String)
    (directives : List String) (selection_set : String) : String :=
  join
    [wrap "" field_alias ": " ++ name ++ wrap "(" (join arguments ", ") ")",
     join directives " ",
     selection_set]
    " "

/-- Printer callback `leave_argument`. -/
def leave_argument (name value : String) : String := name ++ ": " ++ value

/-- Printer callback `leave_int_value`: the stored text, verbatim. -/
def leave_int_value (value : String) : String := value

/-- Printer callback `leave_float_value`: the stored text, verbatim. -/
def leave_float_value (value : String) : String := value

/-- Printer callback `leave_boolean_value`. -/
def leave_boolean_value (value : Bool) : String :=
  if value then "true" else "false"

/-- Printer callback `leave_null_value`. -/
def leave_null_value : String := "null"

/-- Printer callback `leave_enum_value`. -/
def leave_enum_value (value : String) : String := value

/-- Printer callback `leave_list_value`. -/
def leave_list_value (values : List String) : String :=
  "[" ++ join values ", " ++ "]"

/-- Printer callback `leave_object_value`. -/
def leave_object_value (fields : List String) : String :=
  "\x7b" ++ join fields ", " ++ "\x7d"

/-- Printer callback `leave_directive` (an applied `@dir(args)` directive). -/
def leave_directive (name : String) (arguments : List String) : String :=
  "@" ++ name ++ wrap "(" (join arguments ", ") ")"

/-- Printer callback `leave_field_definition` (with the `add_description`
decorator applied): a field of an object/interface type definition, whose
argument list switches to an indented block when any printed argument is
multiline. -/
def leave_field_definition (description name : String) (arguments : List String)
    (type : String) (directives : List String) : String :=
  let args :=
    if has_multiline_items arguments then
      wrap "(\n" (indent (join arguments "\n")) "\n)"
    else
      wrap "(" (join arguments ", ") ")"
  add_description description
    (name ++ args ++ ": " ++ type ++ wrap " " (join directives " ") "")

/-- Printer callback `leave_directive_definition` (with the `add_description`
decorator applied), using the same multiline argument-list rule as
`leave_field_definition`. -/
def leave_directive_definition (description name : String)
    (arguments : List String) (repeatable : Bool) (locations : List String) :
    String :=
  let args :=
    if has_multiline_items arguments then
      wrap "(\n" (indent (join arguments "\n")) "\n)"
    else
      wrap "(" (join arguments ", ") ")"
  let rep := if repeatable then " repeatable" else ""
  add_description description
    ("directive @" ++ name ++ args ++ rep ++ " on " ++ join locations " | ")


/-- Four lowercase hex digits of a code unit, as in a Python `\uXXXX` escape. -/
def uHex (n : Nat) : String :=
  let ds := Nat.toDigits 16 n
  String.mk (List.replicate (4 - ds.length) '0' ++ ds)

/-- Escape of one character in the string encoder of Python `json.dumps`
(default `ensure_ascii=True`): the two-character escapes for quote, backslash
and the common control characters, `\uXXXX` for the other control and all
non-ASCII characters (surrogate pairs beyond the basic plane), and the
character itself otherwise. -/
def escapeJsonChar (c : Char) : String :=
  if c = '"' then "\\\""
  else if c = '\\' then "\\\\"
  else if c = '\n' then "\\n"
  else if c = '\r' then "\\r"
  else if c = '\t' then "\\t"
  else if c = '\x08' then "\\b"
  else if c = '\x0c' then "\\f"
  else if c.toNat < 0x20 then "\\u" ++ uHex c.toNat
  else if c.toNat < 0x7f then String.singleton c
  else if c.toNat ≤ 0xffff then "\\u" ++ uHex c.toNat
  else
    let v := c.toNat - 0x10000
    "\\u" ++ uHex (0xd800 + v / 0x400) ++ "\\u" ++ uHex (0xdc00 + v % 0x400)

/-- Python `json.dumps` applied to a string value: JSON-style quote and
escape. -/
def jsonDumps (value : String) : String :=
  "\"" ++ String.join (value.data.map escapeJsonChar) ++ "\""

/-- Modelled from the spec: `print_block_string` of the block-string module is
not under src/; the spec describes it only as block-string reformatting that
produces a reindented, triple-quoted form. This model puts the triple quotes
on their own lines and prefixes every line of the value with the given
indentation. -/
def print_block_string (value indentation : String) : String :=
  "\"\"\"\n" ++ indentation ++
    String.join (value.data.map fun c =>
      if c = '\n' then "\n" ++ indentation else String.singleton c) ++
    "\n\"\"\""

/-- Printer callback `leave_string_value`: the one callback that receives the
attribute key under which the node sits in its parent; block strings delegate
to block-string reformatting with no extra indentation under the
`description` key, and every other string value is JSON-encoded. -/
def leave_string_value (block : Bool) (value key : String) : String :=
  if block then
    print_block_string value (if key = "description" then "" else "  ")
  else jsonDumps value


/-- Modelled from the spec: the AST value-node kinds (the ast module is not
under src/) — variable, int, float, string, boolean, null, enum, list and
object values; an object field pairs a field name with a value node. -/
inductive ValueNode where
  | var (name : String)
  | intValue (value : String)
  | floatValue (value : String)
  | stringValue (value : String) (block : Bool)
  | booleanValue (value : Bool)
  | nullValue
  | enumValue (value : String)
  | listValue (values : List ValueNode)
  | objectValue (fields : List (String × ValueNode))

/-- Whether a value node has kind `variable`. -/
def isVariableNode : ValueNode → Bool
  | .var _ => true
  | _ => false

mutual

/-- Modelled from the spec: `is_const_value_node` (the predicates module is
not under src/) recurses into `list_value.values` and the values of
`object_value.fields` and returns false as soon as any nested node has kind
`variable`; all other value kinds are trivially constant. -/
def is_const_value_node : ValueNode → Bool
  | .var _ => false
  | .listValue values => allConstValues values
  | .objectValue fields => allConstFields fields
  | _ => true

/-- Conjunction of `is_const_value_node` over the values of a list value. -/
def allConstValues : List ValueNode → Bool
  | [] => true
  | v :: vs => is_const_value_node v && allConstValues vs

/-- Conjunction of `is_const_value_node` over the values of an object value's
fields. -/
def allConstFields : List (String × ValueNode) → Bool
  | [] => true
  | (_, v) :: fs => is_const_value_node v && allConstFields fs

end

/-- Reachability through `list_value.values` and `object_value.fields[*].value`,
in the words of the claim. -/
inductive ReachableValue : ValueNode → ValueNode → Prop where
  | refl (v : ValueNode) : ReachableValue v v
  | listStep {values : List ValueNode} {v w : ValueNode} :
      v ∈ values → ReachableValue v w → ReachableValue (.listValue values) w
  | objectStep {fields : List (String × ValueNode)} {name : String}
      {v w : ValueNode} :
      (name, v) ∈ fields → ReachableValue v w →
      ReachableValue (.objectValue fields) w


/-- Modelled from the spec: the enumerated directive-location tags (the
DirectiveLocation enum is not under src/), naming where in a document a
directive may legally appear. -/
inductive DirectiveLocation where
  | queryLoc
  | mutationLoc
  | subscriptionLoc
  | fieldLoc
  | fragmentDefinitionLoc
  | fragmentSpreadLoc
  | inlineFragmentLoc
  | variableDefinitionLoc
  | schemaLoc
  | scalarLoc
  | objectLoc
  | fieldDefinitionLoc
  | argumentDefinitionLoc
  | interfaceLoc
  | unionLoc
  | enumLoc
  | enumValueLoc
  | inputObjectLoc
  | inputFieldDefinitionLoc
deriving DecidableEq

/-- The equivalent string spelling of each directive location, from which the
constructor coerces string inputs. -/
def DirectiveLocation.fromString : String → Option DirectiveLocation
  | "QUERY" => some .queryLoc
  | "MUTATION" => some .mutationLoc
  | "SUBSCRIPTION" => some .subscriptionLoc
  | "FIELD" => some .fieldLoc
  | "FRAGMENT_DEFINITION" => some .fragmentDefinitionLoc
  | "FRAGMENT_SPREAD" => some .fragmentSpreadLoc
  | "INLINE_FRAGMENT" => some .inlineFragmentLoc
  | "VARIABLE_DEFINITION" => some .variableDefinitionLoc
  | "SCHEMA" => some .schemaLoc
  | "SCALAR" => some .scalarLoc
  | "OBJECT" => some .objectLoc
  | "FIELD_DEFINITION" => some .fieldDefinitionLoc
  | "ARGUMENT_DEFINITION" => some .argumentDefinitionLoc
  | "INTERFACE" => some .interfaceLoc
  | "UNION" => some .unionLoc
  | "ENUM" => some .enumLoc
  | "ENUM_VALUE" => some .enumValueLoc
  | "INPUT_OBJECT" => some .inputObjectLoc
  | "INPUT_FIELD_DEFINITION" => some .inputFieldDefinitionLoc
  | _ => none

/-- Modelled from the spec: an argument definition of a directive (the type
system module is not under src/); only the attributes that participate in
directive equality are carried. -/
structure GraphQLArgument where
  type : String
  description : Option String
deriving DecidableEq

/-- Modelled from the spec: the directive type-system entity (the type system
module is not under src/): name, ordered locations, named args, repeatable
flag, optional description, and a non-owning optional back-reference to the
originating AST node (represented by its identity). -/
structure GraphQLDirective where
  name : String
  locations : List DirectiveLocation
  args : List (String × GraphQLArgument)
  is_repeatable : Bool
  description : Option String
  ast_node : Option Nat

/-- Errors raised at directive construction time; mirrors the distinction
between GraphQLError (name validation) and TypeError (locations typing) made
by the tests. -/
inductive DirectiveError where
  | graphQLError (message : String)
  | typeError (message : String)
deriving DecidableEq

/-- Whether a character may start a name: `[_A-Za-z]`. -/
def isNameStart (c : Char) : Bool :=
  c = '_' || ('A' ≤ c && c ≤ 'Z') || ('a' ≤ c && c ≤ 'z')

/-- Whether a character may continue a name: `[_0-9A-Za-z]`. -/
def isNameContinue (c : Char) : Bool :=
  isNameStart c || ('0' ≤ c && c ≤ '9')

/-- Validation of a name given as its character list: non-empty, and matching
the pattern `[_A-Za-z][_0-9A-Za-z]*`. -/
def checkNameChars : List Char → Option DirectiveError
  | [] => some (.graphQLError "Expected name to be a non-empty string.")
  | c :: cs =>
    if isNameStart c && cs.all isNameContinue then none
    else some (.graphQLError
      ("Names must only contain [_a-zA-Z0-9] but this one does not."))

/-- Modelled from the spec: name validation for directives and their argument
names — the name is non-empty and matches the pattern
`[_A-Za-z][_0-9A-Za-z]*`. -/
def checkName (name : String) : Option DirectiveError :=
  checkNameChars name.data

/-- Coercion of the locations input: every entry is either an enum value or
the equivalent string spelling of one; any other entry fails. -/
def coerceLocations : List (DirectiveLocation ⊕ String) →
    Option (List DirectiveLocation)
  | [] => some []
  | .inl l :: rest => (coerceLocations rest).map (l :: ·)
  | .inr s :: rest =>
    match DirectiveLocation.fromString s with
    | none => none
    | some l => (coerceLocations rest).map (l :: ·)

/-- First invalid argument name, if any. -/
def checkArgNames : List (String × GraphQLArgument) → Option DirectiveError
  | [] => none
  | (n, _) :: rest =>
    match checkName n with
    | some e => some e
    | none => checkArgNames rest

/-- Modelled from the spec: construction of a directive entity, which
validates the name, requires the locations to be a collection of enum values
or their equivalent string spellings, and validates the argument names,
before any directive value is produced. -/
def mkGraphQLDirective (name : String)
    (locations : Option (List (DirectiveLocation ⊕ String)))
    (args : List (String × GraphQLArgument)) (is_repeatable : Bool)
    (description : Option String) (ast_node : Option Nat) :
    Except DirectiveError GraphQLDirective :=
  match checkName name with
  | some e => .error e
  | none =>
    match locations with
    | none => .error (.typeError (name ++
        " locations must be specified as a collection of DirectiveLocation enum values."))
    | some locs =>
      match coerceLocations locs with
      | none => .error (.typeError (name ++
          " locations must be specified as a collection of DirectiveLocation enum values."))
      | some ls =>
        match checkArgNames args with
        | some e => .error e
        | none => .ok ⟨name, ls, args, is_repeatable, description, ast_node⟩

/-- Whether directive construction failed. -/
def directiveIsError : Except DirectiveError GraphQLDirective → Bool
  | .error _ => true
  | .ok _ => false

/-- Modelled from the spec: equality of directive entities — name, locations,
args, repeatable flag and description compare; the `ast_node` back-reference
is excluded. -/
def directiveEq (a b : GraphQLDirective) : Bool :=
  decide (a.name = b.name) && decide (a.locations = b.locations) &&
    decide (a.args = b.args) && decide (a.is_repeatable = b.is_repeatable) &&
    decide (a.description = b.description)

/-! Basic facts about the joining helpers. -/

theorem length_pos_of_ne_empty {s : String} (h : s ≠ "") : 0 < s.length := by
  rcases s with ⟨data⟩
  cases data with
  | nil => exact absurd rfl h
  | cons c cs => simp [String.length]

theorem ne_empty_of_length_pos {s : String} (h : 0 < s.length) : s ≠ "" := by
  intro he
  rw [he] at h
  simp at h

theorem intercalate_go_length (sep : String) :
    ∀ (l : List String) (acc : String),
      acc.length ≤ (String.intercalate.go acc sep l).length := by
  intro l
  induction l with
  | nil => intro acc; simp [String.intercalate.go]
  | cons a as ih =>
    intro acc
    calc acc.length ≤ (acc ++ sep ++ a).length := by
          simp [String.length_append]; omega
      _ ≤ (String.intercalate.go (acc ++ sep ++ a) sep as).length := ih _
      _ = (String.intercalate.go acc sep (a :: as)).length := by
          rw [String.intercalate.go]

theorem intercalate_go_length_of_mem (sep : String) {x : String} :
    ∀ (l : List String) (acc : String), x ∈ l →
      acc.length + sep.length + x.length ≤
        (String.intercalate.go acc sep l).length := by
  intro l
  induction l with
  | nil => intro acc h; simp at h
  | cons a as ih =>
    intro acc h
    rw [String.intercalate.go]
    rcases List.mem_cons.1 h with h1 | h2
    · subst h1
      calc acc.length + sep.length + x.length = (acc ++ sep ++ x).length := by
            simp [String.length_append]
        _ ≤ (String.intercalate.go (acc ++ sep ++ x) sep as).length :=
            intercalate_go_length sep as _
    · calc acc.length + sep.length + x.length ≤
            (acc ++ sep ++ a).length + sep.length + x.length := by
            simp [String.length_append]; omega
        _ ≤ (String.intercalate.go (acc ++ sep ++ a) sep as).length := ih _ h2

theorem intercalate_length_head (sep a : String) (l : List String) :
    a.length ≤ (String.intercalate sep (a :: l)).length := by
  rw [String.intercalate]
  exact intercalate_go_length sep l a

theorem intercalate_length_of_mem (sep a : String) {x : String} {l : List String}
    (h : x ∈ l) :
    a.length + sep.length + x.length ≤
      (String.intercalate sep (a :: l)).length := by
  rw [String.intercalate]
  exact intercalate_go_length_of_mem sep l a h

theorem join_nil (sep : String) : join [] sep = "" := rfl

theorem join_three_mid_empty (x y sep : String) :
    join [x, "", y] sep = join [x, y] sep := by
  unfold join
  congr 1

theorem join_three_last_empty (x y sep : String) :
    join [x, y, ""] sep = join [x, y] sep := by
  unfold join
  congr 1

theorem join_all_nonempty {l : List String} (sep : String)
    (h : ∀ a ∈ l, a ≠ "") : join l sep = String.intercalate sep l := by
  unfold join
  congr 1
  exact List.filter_eq_self.2 fun a ha => decide_eq_true (h a ha)

theorem join_ne_empty_of_mem {l : List String} {a : String} (sep : String)
    (ha : a ∈ l) (hne : a ≠ "") : join l sep ≠ "" := by
  have hmem : a ∈ l.filter fun s => decide (s ≠ "") :=
    List.mem_filter.2 ⟨ha, decide_eq_true hne⟩
  unfold join
  cases hf : l.filter fun s => decide (s ≠ "") with
  | nil => rw [hf] at hmem; simp at hmem
  | cons b bs =>
    have hb : b ∈ l.filter fun s => decide (s ≠ "") := by rw [hf]; exact List.mem_cons_self b bs
    have hbne : b ≠ "" := of_decide_eq_true (List.mem_filter.1 hb).2
    exact ne_empty_of_length_pos
      (Nat.lt_of_lt_of_le (length_pos_of_ne_empty hbne) (intercalate_length_head _ b bs))

theorem join_eq_empty_iff_of_nonempty {l : List String} (sep : String)
    (h : ∀ a ∈ l, a ≠ "") : join l sep = "" ↔ l = [] := by
  constructor
  · intro he
    cases l with
    | nil => rfl
    | cons a as =>
      exact absurd he
        (join_ne_empty_of_mem sep (List.mem_cons_self a as) (h a (List.mem_cons_self a as)))
  · intro he; subst he; rfl

theorem wrap_ne_empty {start s stop : String} (h : s ≠ "") :
    wrap start s stop ≠ "" := by
  unfold wrap
  rw [if_pos h]
  apply ne_empty_of_length_pos
  have h1 : (start ++ s ++ stop).length = start.length + s.length + stop.length := by
    simp [String.length_append]
  have h2 : 0 < s.length := length_pos_of_ne_empty h
  omega

theorem wrap_eq_empty_iff (start s stop : String) :
    wrap start s stop = "" ↔ s = "" := by
  constructor
  · intro h
    by_contra hs
    exact wrap_ne_empty hs h
  · intro h
    simp [wrap, h]

theorem join_pair_sep_empty (a b : String) : join [a, b] "" = a ++ b := by
  by_cases ha : a = "" <;> by_cases hb : b = "" <;>
    simp [join, List.filter_cons, ha, hb, String.intercalate, String.intercalate.go]

theorem operation_value_ne_empty (op : OperationType) : op.value ≠ "" := by
  cases op <;> decide

/-- C9: boolean value nodes print exactly as lowercase `true`/`false`, the null
value node prints exactly as `null`, and int/float value nodes print their
stored text verbatim, with no re-formatting. -/
theorem claim_C9_literal_fidelity :
    leave_boolean_value true = "true" ∧ leave_boolean_value false = "false" ∧
    leave_null_value = "null" ∧ (∀ value, leave_int_value value = value) ∧
    (∀ value, leave_float_value value = value) :=
  ⟨rfl, rfl, rfl, fun _ => rfl, fun _ => rfl⟩

/-- C10: a document with no definitions prints as exactly the one-character
string consisting of a newline, and a document never prints as the empty
string since the trailing newline is always appended. -/
theorem claim_C10_empty_document :
    leave_document [] = "\n" ∧ ("\n").length = 1 ∧
    ∀ definitions, leave_document definitions ≠ "" := by
  refine ⟨rfl, rfl, fun definitions h => ?_⟩
  have h1 : (leave_document definitions).length = (join definitions "\n\n").length + 1 :=
    String.length_append _ _
  rw [h] at h1
  simp at h1

/-- C5: empty collections vanish from the printed output: an empty block
renders as the empty string rather than empty braces, wrapping an empty string
yields the empty string rather than bare delimiters, an empty selection set
renders as the empty string, and a field with an empty argument list, an empty
directive list, or an absent selection set prints with that element entirely
omitted. -/
theorem claim_C5_empty_collections_vanish :
    block [] = "" ∧ (∀ start stop, wrap start "" stop = "") ∧
    leave_selection_set [] = "" ∧
    (∀ field_alias name directives selection_set,
      leave_field field_alias name [] directives selection_set =
        join [wrap "" field_alias ": " ++ name, join directives " ", selection_set] " ") ∧
    (∀ field_alias name arguments selection_set,
      leave_field field_alias name arguments [] selection_set =
        join [wrap "" field_alias ": " ++ name ++ wrap "(" (join arguments ", ") ")",
          selection_set] " ") ∧
    (∀ field_alias name arguments directives,
      leave_field field_alias name arguments directives "" =
        join [wrap "" field_alias ": " ++ name ++ wrap "(" (join arguments ", ") ")",
          join directives " "] " ") := by
  refine ⟨rfl, fun start stop => rfl, rfl, fun a n d s => ?_, fun a n args s => ?_,
    fun a n args d => ?_⟩
  · show join [wrap "" a ": " ++ n ++ wrap "(" (join [] ", ") ")", join d " ", s] " " = _
    simp [wrap, join, String.intercalate]
  · show join [wrap "" a ": " ++ n ++ wrap "(" (join args ", ") ")", join [] " ", s] " " = _
    exact join_three_mid_empty _ _ _
  · show join [wrap "" a ": " ++ n ++ wrap "(" (join args ", ") ")", join d " ", ""] " " = _
    exact join_three_last_empty _ _ _


theorem join_length_head {a : String} (l : List String) (sep : String)
    (hane : a ≠ "") : a.length ≤ (join (a :: l) sep).length := by
  unfold join
  have hfc : List.filter (fun s => decide (s ≠ "")) (a :: l) =
      a :: List.filter (fun s => decide (s ≠ "")) l := by
    simp [List.filter_cons, hane]
  rw [hfc]
  exact intercalate_length_head _ _ _

theorem join_length_of_head_mem {a x : String} {l : List String} (sep : String)
    (hane : a ≠ "") (hx : x ∈ l) (hxne : x ≠ "") :
    a.length + sep.length + x.length ≤ (join (a :: l) sep).length := by
  unfold join
  have hfc : List.filter (fun s => decide (s ≠ "")) (a :: l) =
      a :: List.filter (fun s => decide (s ≠ "")) l := by
    simp [List.filter_cons, hane]
  rw [hfc]
  exact intercalate_length_of_mem sep a (List.mem_filter.2 ⟨hx, decide_eq_true hxne⟩)

theorem claim_C2_short_form_iff
    (name : String) (operation : OperationType) (selection_set : String)
    (variable_definitions directives : List String)
    (hv : ∀ v ∈ variable_definitions, v ≠ "") (hd : ∀ d ∈ directives, d ≠ "") :
    (leave_operation_definition name operation selection_set
        variable_definitions directives = selection_set
      ↔ (name = "" ∧ directives = [] ∧ variable_definitions = [] ∧
          operation = OperationType.query)) ∧
    ((name ≠ "" ∨ directives ≠ [] ∨ variable_definitions ≠ [] ∨
        operation ≠ OperationType.query) →
      leave_operation_definition name operation selection_set
          variable_definitions directives =
        String.intercalate " " (List.filter (fun s => decide (s ≠ ""))
          [operation.value,
           name ++ (if variable_definitions = [] then ""
             else "(" ++ String.intercalate ", " variable_definitions ++ ")"),
           String.intercalate " " directives,
           selection_set])) := by
  have hjv : join variable_definitions ", " = String.intercalate ", " variable_definitions :=
    join_all_nonempty _ hv
  have hjd : join directives " " = String.intercalate " " directives :=
    join_all_nonempty _ hd
  have hveq : (wrap "(" (join variable_definitions ", ") ")" = "") ↔
      variable_definitions = [] := by
    rw [wrap_eq_empty_iff]
    exact join_eq_empty_iff_of_nonempty _ hv
  have hdeq : (join directives " " = "") ↔ directives = [] :=
    join_eq_empty_iff_of_nonempty _ hd
  have hopne := operation_value_ne_empty operation
  by_cases hC : name ≠ "" ∨ join directives " " ≠ "" ∨
      wrap "(" (join variable_definitions ", ") ")" ≠ "" ∨
      operation ≠ OperationType.query
  · have hout : leave_operation_definition name operation selection_set
        variable_definitions directives =
        join [operation.value,
          join [name, wrap "(" (join variable_definitions ", ") ")"] "",
          join directives " ", selection_set] " " := by
      simp only [leave_operation_definition]
      rw [if_pos hC]
    have hlong_ne : join [operation.value,
        join [name, wrap "(" (join variable_definitions ", ") ")"] "",
        join directives " ", selection_set] " " ≠ selection_set := by
      by_cases hs : selection_set = ""
      · rw [hs]
        exact join_ne_empty_of_mem " " (List.mem_cons_self _ _) hopne
      · intro heq
        have hlen := join_length_of_head_mem " " hopne
          (show selection_set ∈ [join [name, wrap "(" (join variable_definitions ", ") ")"] "",
            join directives " ", selection_set] by simp) hs
        rw [heq] at hlen
        have hop := length_pos_of_ne_empty hopne
        have hsep : (" " : String).length = 1 := rfl
        omega
    refine ⟨?_, ?_⟩
    · rw [hout]
      constructor
      · intro h; exact absurd h hlong_ne
      · rintro ⟨h1, h2, h3, h4⟩
        exfalso
        rcases hC with h | h | h | h
        · exact h h1
        · exact h (hdeq.2 h2)
        · exact h (hveq.2 h3)
        · exact h h4
    · intro _
      rw [hout]
      have hB : join [name, wrap "(" (join variable_definitions ", ") ")"] "" =
          name ++ (if variable_definitions = [] then ""
            else "(" ++ String.intercalate ", " variable_definitions ++ ")") := by
        rw [join_pair_sep_empty]
        congr 1
        by_cases hvd : variable_definitions = []
        · simp [hvd, wrap, join, String.intercalate]
        · have hvne : join variable_definitions ", " ≠ "" := by
            intro h; exact hvd ((join_eq_empty_iff_of_nonempty _ hv).1 h)
          rw [if_neg hvd]
          simp only [wrap]
          rw [if_pos hvne, hjv]
      rw [hB, hjd]
      unfold join
      rfl
  · push_neg at hC
    obtain ⟨h1, h2, h3, h4⟩ := hC
    have hout : leave_operation_definition name operation selection_set
        variable_definitions directives = selection_set := by
      simp only [leave_operation_definition]
      rw [if_neg]
      push_neg
      exact ⟨h1, h2, h3, h4⟩
    refine ⟨?_, ?_⟩
    · rw [hout]
      simp [h1, h4, hdeq.1 h2, hveq.1 h3]
    · intro hcond
      exfalso
      rcases hcond with h | h | h | h
      · exact h h1
      · exact h (hdeq.1 h2)
      · exact h (hveq.1 h3)
      · exact h h4


theorem indent_ne_empty {s : String} (h : s ≠ "") : indent s ≠ "" := by
  unfold indent
  rw [if_pos h]
  apply ne_empty_of_length_pos
  have : ("  " ++ replaceNewlines s).length = 2 + (replaceNewlines s).length :=
    String.length_append _ _
  omega

theorem claim_C3_multiline_argument_lists
    (description name type : String) (arguments directives locations : List String)
    (repeatable : Bool)
    (hne : arguments ≠ []) (hall : ∀ a ∈ arguments, a ≠ "") :
    (has_multiline_items arguments = true →
      leave_field_definition description name arguments type directives =
        add_description description
          (name ++ ("(\n" ++ indent (String.intercalate "\n" arguments) ++ "\n)") ++
            ": " ++ type ++ wrap " " (join directives " ") "") ∧
      leave_directive_definition description name arguments repeatable locations =
        add_description description
          ("directive @" ++ name ++
            ("(\n" ++ indent (String.intercalate "\n" arguments) ++ "\n)") ++
            (if repeatable then " repeatable" else "") ++ " on " ++
            join locations " | ")) ∧
    (has_multiline_items arguments = false →
      leave_field_definition description name arguments type directives =
        add_description description
          (name ++ ("(" ++ String.intercalate ", " arguments ++ ")") ++
            ": " ++ type ++ wrap " " (join directives " ") "") ∧
      leave_directive_definition description name arguments repeatable locations =
        add_description description
          ("directive @" ++ name ++
            ("(" ++ String.intercalate ", " arguments ++ ")") ++
            (if repeatable then " repeatable" else "") ++ " on " ++
            join locations " | ")) := by
  obtain ⟨a0, rest, rfl⟩ : ∃ a0 rest, arguments = a0 :: rest := by
    cases arguments with
    | nil => exact absurd rfl hne
    | cons x xs => exact ⟨x, xs, rfl⟩
  have hmem : a0 ∈ a0 :: rest := List.mem_cons_self _ _
  have hjn_ne : join (a0 :: rest) "\n" ≠ "" :=
    join_ne_empty_of_mem "\n" hmem (hall a0 hmem)
  have hjc_ne : join (a0 :: rest) ", " ≠ "" :=
    join_ne_empty_of_mem ", " hmem (hall a0 hmem)
  have hmulti : wrap "(\n" (indent (join (a0 :: rest) "\n")) "\n)" =
      "(\n" ++ indent (String.intercalate "\n" (a0 :: rest)) ++ "\n)" := by
    simp only [wrap]
    rw [if_pos (indent_ne_empty hjn_ne), join_all_nonempty "\n" hall]
  have hsingle : wrap "(" (join (a0 :: rest) ", ") ")" =
      "(" ++ String.intercalate ", " (a0 :: rest) ++ ")" := by
    simp only [wrap]
    rw [if_pos hjc_ne, join_all_nonempty ", " hall]
  constructor
  · intro hm
    constructor
    · simp only [leave_field_definition]
      rw [if_pos hm, hmulti]
    · simp only [leave_directive_definition]
      rw [if_pos hm, hmulti]
  · intro hm
    constructor
    · simp only [leave_field_definition]
      rw [if_neg (by simp [hm]), hsingle]
    · simp only [leave_directive_definition]
      rw [if_neg (by simp [hm]), hsingle]


/-- Witness for C2 at concrete inputs: an anonymous default-type operation with
no variable definitions and no directives prints as its bare selection set,
while a mutation with the same empty attributes does not. -/
theorem claim_C2_short_form_iff_witness :
    leave_operation_definition "" OperationType.query "sel" [] [] = "sel" ∧
    leave_operation_definition "" OperationType.mutation "sel" [] [] ≠ "sel" := by
  have h1 := claim_C2_short_form_iff "" OperationType.query "sel" [] []
    (by simp) (by simp)
  have h2 := claim_C2_short_form_iff "" OperationType.mutation "sel" [] []
    (by simp) (by simp)
  refine ⟨h1.1.mpr ⟨rfl, rfl, rfl, rfl⟩, fun h => ?_⟩
  have hcontra := h2.1.mp h
  simp at hcontra

/-- Witness for C3 at a concrete input containing a multiline argument. -/
theorem claim_C3_multiline_argument_lists_witness :
    leave_field_definition "" "f" ["a: I\nx", "b: S"] "T" [] =
      add_description ""
        ("f" ++ ("(\n" ++ indent (String.intercalate "\n" ["a: I\nx", "b: S"]) ++ "\n)") ++
          ": " ++ "T" ++ wrap " " (join [] " ") "") :=
  ((claim_C3_multiline_argument_lists "" "f" "T" ["a: I\nx", "b: S"] [] [] false
    (by decide) (by decide)).1 (by decide)).1

/-- Counterexample to C4 as stated: a string value that is not flagged as a
block string and sits under the `description` key IS JSON-escaped — the
embedded quote comes out backslash-escaped, so the output differs from the
merely quoted raw text. -/
theorem claim_C4_counterexample :
    leave_string_value false "a\"b" "description" = "\"a\\\"b\"" ∧
    leave_string_value false "a\"b" "description" ≠ "\"a\"b\"" := by
  constructor
  · decide
  · decide

/-- C4 (amended): a block-flagged string value is printed via block-string
reformatting, with indentation the empty string exactly under the
`description` key and two spaces under every other key; every non-block
string value — descriptions included — is printed JSON-style quoted and
escaped. -/
theorem claim_C4_string_value_dispatch :
    (∀ value key, leave_string_value true value key =
      print_block_string value (if key = "description" then "" else "  ")) ∧
    (∀ value, leave_string_value true value "description" =
      print_block_string value "") ∧
    (∀ value key, key ≠ "description" →
      leave_string_value true value key = print_block_string value "  ") ∧
    (∀ value key, leave_string_value false value key = jsonDumps value) := by
  refine ⟨fun v k => rfl, fun v => rfl, fun v k h => ?_, fun v k => rfl⟩
  simp [leave_string_value, h]

/-- Witness for the amended C4 at a concrete non-description key. -/
theorem claim_C4_string_value_dispatch_witness :
    leave_string_value true "abc" "fields" = print_block_string "abc" "  " :=
  claim_C4_string_value_dispatch.2.2.1 "abc" "fields" (by decide)

theorem allConstValues_eq_false_iff (vs : List ValueNode) :
    allConstValues vs = false ↔ ∃ u ∈ vs, is_const_value_node u = false := by
  induction vs with
  | nil => simp [allConstValues]
  | cons v vs ih =>
    rw [allConstValues, Bool.and_eq_false_iff, ih]
    constructor
    · rintro (h | ⟨u, hu, h⟩)
      · exact ⟨v, List.mem_cons_self _ _, h⟩
      · exact ⟨u, List.mem_cons_of_mem _ hu, h⟩
    · rintro ⟨u, hu, h⟩
      rcases List.mem_cons.1 hu with rfl | hu
      · exact Or.inl h
      · exact Or.inr ⟨u, hu, h⟩

theorem allConstFields_eq_false_iff (fs : List (String × ValueNode)) :
    allConstFields fs = false ↔
      ∃ p ∈ fs, is_const_value_node (Prod.snd p) = false := by
  induction fs with
  | nil => simp [allConstFields]
  | cons f fs ih =>
    obtain ⟨n, v⟩ := f
    rw [allConstFields, Bool.and_eq_false_iff, ih]
    constructor
    · rintro (h | ⟨p, hp, h⟩)
      · exact ⟨(n, v), List.mem_cons_self _ _, h⟩
      · exact ⟨p, List.mem_cons_of_mem _ hp, h⟩
    · rintro ⟨p, hp, h⟩
      rcases List.mem_cons.1 hp with rfl | hp
      · exact Or.inl h
      · exact Or.inr ⟨p, hp, h⟩

/-- C6: the constant-value predicate returns false exactly when some node
reachable through list values and object field values has kind `variable`. -/
theorem claim_C6_const_value_iff (v : ValueNode) :
    is_const_value_node v = false ↔
      ∃ w, ReachableValue v w ∧ isVariableNode w = true := by
  suffices h : ∀ n (v : ValueNode), sizeOf v ≤ n →
      (is_const_value_node v = false ↔
        ∃ w, ReachableValue v w ∧ isVariableNode w = true) from
    h (sizeOf v) v le_rfl
  intro n
  induction n using Nat.strong_induction_on with
  | _ n ih =>
    intro v hv
    cases v with
    | var name =>
      simp only [is_const_value_node, isVariableNode]
      constructor
      · intro _
        exact ⟨.var name, ReachableValue.refl _, rfl⟩
      · intro _; trivial
    | intValue s =>
      simp only [is_const_value_node]
      constructor
      · intro h; cases h
      · rintro ⟨w, hr, hw⟩
        cases hr
        simp [isVariableNode] at hw
    | floatValue s =>
      simp only [is_const_value_node]
      constructor
      · intro h; cases h
      · rintro ⟨w, hr, hw⟩
        cases hr
        simp [isVariableNode] at hw
    | stringValue s b =>
      simp only [is_const_value_node]
      constructor
      · intro h; cases h
      · rintro ⟨w, hr, hw⟩
        cases hr
        simp [isVariableNode] at hw
    | booleanValue b =>
      simp only [is_const_value_node]
      constructor
      · intro h; cases h
      · rintro ⟨w, hr, hw⟩
        cases hr
        simp [isVariableNode] at hw
    | nullValue =>
      simp only [is_const_value_node]
      constructor
      · intro h; cases h
      · rintro ⟨w, hr, hw⟩
        cases hr
        simp [isVariableNode] at hw
    | enumValue s =>
      simp only [is_const_value_node]
      constructor
      · intro h; cases h
      · rintro ⟨w, hr, hw⟩
        cases hr
        simp [isVariableNode] at hw
    | listValue vs =>
      have hsize : sizeOf vs < n := by
        have := hv
        simp only [ValueNode.listValue.sizeOf_spec] at this
        omega
      rw [show is_const_value_node (.listValue vs) = allConstValues vs from rfl,
        allConstValues_eq_false_iff]
      constructor
      · rintro ⟨u, hu, h⟩
        have hu_size : sizeOf u < n :=
          Nat.lt_trans (List.sizeOf_lt_of_mem hu) hsize
        obtain ⟨w, hr, hw⟩ := (ih (sizeOf u) hu_size u le_rfl).1 h
        exact ⟨w, ReachableValue.listStep hu hr, hw⟩
      · rintro ⟨w, hr, hw⟩
        cases hr with
        | refl => simp [isVariableNode] at hw
        | listStep hm hr2 =>
          rename_i u
          have hu_size : sizeOf u < n :=
            Nat.lt_trans (List.sizeOf_lt_of_mem hm) hsize
          exact ⟨u, hm, (ih (sizeOf u) hu_size u le_rfl).2 ⟨w, hr2, hw⟩⟩
    | objectValue fs =>
      have hsize : sizeOf fs < n := by
        have := hv
        simp only [ValueNode.objectValue.sizeOf_spec] at this
        omega
      rw [show is_const_value_node (.objectValue fs) = allConstFields fs from rfl,
        allConstFields_eq_false_iff]
      constructor
      · rintro ⟨p, hp, h⟩
        obtain ⟨nm, u⟩ := p
        have hu_size : sizeOf u < n := by
          have h1 := List.sizeOf_lt_of_mem hp
          simp only [Prod.mk.sizeOf_spec] at h1
          omega
        obtain ⟨w, hr, hw⟩ := (ih (sizeOf u) hu_size u le_rfl).1 h
        exact ⟨w, ReachableValue.objectStep hp hr, hw⟩
      · rintro ⟨w, hr, hw⟩
        cases hr with
        | refl => simp [isVariableNode] at hw
        | objectStep hm hr2 =>
          rename_i nm u
          have hu_size : sizeOf u < n := by
            have h1 := List.sizeOf_lt_of_mem hm
            simp only [Prod.mk.sizeOf_spec] at h1
            omega
          exact ⟨(nm, u), hm, (ih (sizeOf u) hu_size u le_rfl).2 ⟨w, hr2, hw⟩⟩

/-- Helper: a location list containing a string that spells no directive
location fails to coerce. -/
theorem coerceLocations_eq_none {s : String}
    (hbad : DirectiveLocation.fromString s = none) :
    ∀ locs, Sum.inr s ∈ locs → coerceLocations locs = none := by
  intro locs
  induction locs with
  | nil => intro h; simp at h
  | cons x rest ih =>
    intro hmem
    rcases List.mem_cons.1 hmem with rfl | hmem2
    · simp only [coerceLocations]
      rw [hbad]
    · cases x with
      | inl l =>
        simp only [coerceLocations]
        rw [ih hmem2]
        rfl
      | inr t =>
        simp only [coerceLocations]
        cases DirectiveLocation.fromString t with
        | none => rfl
        | some l =>
          rw [ih hmem2]
          rfl

/-- C7: two directive entities compare equal exactly when name, locations,
args, repeatable flag and description are all equal, and two directives that
differ only in the `ast_node` back-reference always compare equal. -/
theorem claim_C7_directive_equality :
    (∀ a b : GraphQLDirective, directiveEq a b = true ↔
      (a.name = b.name ∧ a.locations = b.locations ∧ a.args = b.args ∧
        a.is_repeatable = b.is_repeatable ∧ a.description = b.description)) ∧
    (∀ (name : String) (locations : List DirectiveLocation)
        (args : List (String × GraphQLArgument)) (is_repeatable : Bool)
        (description : Option String) (n1 n2 : Option Nat),
      directiveEq ⟨name, locations, args, is_repeatable, description, n1⟩
        ⟨name, locations, args, is_repeatable, description, n2⟩ = true) := by
  constructor
  · intro a b
    simp [directiveEq, and_assoc]
  · intro name locations args is_repeatable description n1 n2
    simp [directiveEq]

/-- C8: directive construction fails with an error, before any printing, for
an empty name, for a name containing the character `-`, for absent locations,
and for a location entry that is not an enum value or the string spelling of
one. -/
theorem claim_C8_directive_validation :
    (∀ locations args is_repeatable description ast_node,
      directiveIsError (mkGraphQLDirective "" locations args is_repeatable
        description ast_node) = true) ∧
    (∀ name locations args is_repeatable description ast_node,
      '-' ∈ name.data →
      directiveIsError (mkGraphQLDirective name locations args is_repeatable
        description ast_node) = true) ∧
    (∀ name args is_repeatable description ast_node,
      directiveIsError (mkGraphQLDirective name none args is_repeatable
        description ast_node) = true) ∧
    (∀ name locs args is_repeatable description ast_node s,
      Sum.inr s ∈ locs → DirectiveLocation.fromString s = none →
      directiveIsError (mkGraphQLDirective name (some locs) args is_repeatable
        description ast_node) = true) := by
  refine ⟨?_, ?_, ?_, ?_⟩
  · intro locations args is_repeatable description ast_node
    rfl
  · intro name locations args is_repeatable description ast_node hdash
    have hname : ∃ e, checkName name = some e := by
      unfold checkName
      cases hd : name.data with
      | nil => exact ⟨_, rfl⟩
      | cons c cs =>
        rw [hd] at hdash
        rw [checkNameChars]
        rcases List.mem_cons.1 hdash with rfl | hmem
        · rw [if_neg]
          · exact ⟨_, rfl⟩
          · simp [isNameStart]
        · rw [if_neg]
          · exact ⟨_, rfl⟩
          · intro hcontra
            rw [Bool.and_eq_true] at hcontra
            have hbad := (List.all_eq_true.1 hcontra.2) '-' hmem
            simp [isNameContinue, isNameStart] at hbad
    obtain ⟨e, he⟩ := hname
    unfold mkGraphQLDirective
    rw [he]
    rfl
  · intro name args is_repeatable description ast_node
    unfold mkGraphQLDirective
    cases checkName name <;> rfl
  · intro name locs args is_repeatable description ast_node s hmem hbad
    have hcoerce : coerceLocations locs = none :=
      coerceLocations_eq_none hbad locs hmem
    unfold mkGraphQLDirective
    cases checkName name with
    | some e => rfl
    | none =>
      simp only [hcoerce]
      rfl

/-- Witness for C8 at concrete failing inputs: the empty name, the name
`bad-name`, absent locations, and the invalid location string `bad`. -/
theorem claim_C8_directive_validation_witness :
    directiveIsError (mkGraphQLDirective "" (some []) [] false none none) = true ∧
    directiveIsError
      (mkGraphQLDirective "bad-name" (some []) [] false none none) = true ∧
    directiveIsError (mkGraphQLDirective "Foo" none [] false none none) = true ∧
    directiveIsError (mkGraphQLDirective "Foo" (some [Sum.inr "bad"]) [] false
      none none) = true :=
  ⟨claim_C8_directive_validation.1 (some []) [] false none none,
   claim_C8_directive_validation.2.1 "bad-name" (some []) [] false none none
     (by decide),
   claim_C8_directive_validation.2.2.1 "Foo" [] false none none,
   claim_C8_directive_validation.2.2.2 "Foo" [Sum.inr "bad"] [] false none none
     "bad" (by simp) (by decide)⟩

end GraphQL
